import Mathlib

/-!
Shallow embedding of the MedLink backend (Express routes over a Drizzle/
PostgreSQL store). Tables are lists of rows; serial ids are modelled with an
explicit next-id counter; route handlers become functions returning an HTTP
status together with the (possibly updated) table state.

Sources embedded here:
  - server/db/schema.ts        (connections, likes, saved_posts, document_sharing)
  - server/storage.ts          (DrizzleStorage methods)
  - server/routes.ts           (accept/reject/like handlers, auth middleware)
-/

namespace MedLink

/-- Status enum of the `connections` table: `['pending','accepted','rejected']`. -/
inductive ConnStatus where
  | pending
  | accepted
  | rejected
deriving DecidableEq

/-- A row of the `connections` table: serial `id`, initiator `userId`,
recipient `connectedUserId`, and `status`. -/
structure Connection where
  id : Nat
  userId : Nat
  connectedUserId : Nat
  status : ConnStatus
deriving DecidableEq

/-- The `connections` table plus the serial-id sequence. -/
structure ConnDb where
  rows : List Connection
  nextId : Nat
deriving DecidableEq

/-- `DrizzleStorage.getConnectionById`: `findFirst` on `id = connectionId`. -/
def getConnectionById (db : ConnDb) (connectionId : Nat) : Option Connection :=
  db.rows.find? (fun c => c.id == connectionId)

/-- `DrizzleStorage.updateConnectionStatus`: `UPDATE connections SET status
WHERE id = connectionId`. -/
def updateConnectionStatus (db : ConnDb) (connectionId : Nat) (status : ConnStatus) :
    ConnDb :=
  { db with
    rows := db.rows.map (fun c =>
      if c.id = connectionId then { c with status := status } else c) }

/-- `DrizzleStorage.createConnection`: inserts a row with `status := pending`
and a fresh serial id. -/
def createConnection (db : ConnDb) (userId connectedUserId : Nat) : ConnDb :=
  { rows := db.rows ++
      [{ id := db.nextId, userId := userId, connectedUserId := connectedUserId,
         status := ConnStatus.pending }],
    nextId := db.nextId + 1 }

/-- Outcome of a route handler: the HTTP status it responded with and the
table state afterwards. -/
structure HandlerOut where
  httpStatus : Nat
  db : ConnDb
deriving DecidableEq

/-- `POST /api/connections/:connectionId/accept` (routes.ts): 404 when the row
is missing, 403 when the acting user is not the recipient, 400 when the row is
not pending, otherwise update the status to accepted. -/
def acceptConnection (db : ConnDb) (connectionId actingUserId : Nat) : HandlerOut :=
  match getConnectionById db connectionId with
  | none => { httpStatus := 404, db := db }
  | some c =>
    if c.connectedUserId ≠ actingUserId then { httpStatus := 403, db := db }
    else if c.status ≠ ConnStatus.pending then { httpStatus := 400, db := db }
    else { httpStatus := 200, db := updateConnectionStatus db connectionId ConnStatus.accepted }

/-- `POST /api/connections/:connectionId/reject` (routes.ts): 404 when the row
is missing; when the acting user is not the recipient, the handler still lets
the initiator of a pending row through (self-cancel) and 403s everyone else;
then a non-pending row gets 400; otherwise the status is updated to rejected. -/
def rejectConnection (db : ConnDb) (connectionId actingUserId : Nat) : HandlerOut :=
  match getConnectionById db connectionId with
  | none => { httpStatus := 404, db := db }
  | some c =>
    if c.connectedUserId ≠ actingUserId ∧
        ¬(c.userId = actingUserId ∧ c.status = ConnStatus.pending) then
      { httpStatus := 403, db := db }
    else if c.status ≠ ConnStatus.pending then { httpStatus := 400, db := db }
    else { httpStatus := 200, db := updateConnectionStatus db connectionId ConnStatus.rejected }

/-- The documented operations on the connections table. -/
inductive ConnOp where
  | request (initiatorId recipientId : Nat)
  | accept (connectionId actingUserId : Nat)
  | reject (connectionId actingUserId : Nat)
deriving DecidableEq

/-- Effect of one documented operation on the connections table. -/
def applyOp (db : ConnDb) : ConnOp → ConnDb
  | ConnOp.request i r => createConnection db i r
  | ConnOp.accept cid u => (acceptConnection db cid u).db
  | ConnOp.reject cid u => (rejectConnection db cid u).db

/-- Run a sequence of documented operations. -/
def runOps (db : ConnDb) (ops : List ConnOp) : ConnDb :=
  ops.foldl applyOp db

/-- The initial, empty connections table. -/
def emptyConnDb : ConnDb := { rows := [], nextId := 0 }

/-- A table state reachable from the empty table by documented operations. -/
def Reachable (db : ConnDb) : Prop :=
  ∃ ops : List ConnOp, runOps emptyConnDb ops = db

theorem find?_map_update (rows : List Connection) (cid : Nat) (c : Connection)
    (s : ConnStatus) (h : rows.find? (fun x => x.id == cid) = some c) :
    (rows.map (fun x => if x.id = cid then { x with status := s } else x)).find?
      (fun x => x.id == cid) = some { c with status := s } := by
  induction rows with
  | nil => simp [List.find?] at h
  | cons a t ih =>
    by_cases ha : a.id = cid
    · have hac : a = c := by simpa [List.find?_cons, ha] using h
      subst hac
      simp [List.find?_cons, ha]
    · have h' : t.find? (fun x => x.id == cid) = some c := by
        simpa [List.find?_cons, ha] using h
      simpa [List.find?_cons, ha] using ih h'

theorem getConnectionById_update (db : ConnDb) (cid : Nat) (c : Connection)
    (s : ConnStatus) (h : getConnectionById db cid = some c) :
    getConnectionById (updateConnectionStatus db cid s) cid =
      some { c with status := s } :=
  find?_map_update db.rows cid c s h

/-- Claim C1: Accept succeeds (HTTP 200, row transitions to accepted) iff the
acting user is the row's recipient and the row is pending; a non-recipient
gets 403 with the table unchanged, and a recipient of a non-pending row gets
400 with the table unchanged. -/
theorem C1_accept_spec (db : ConnDb) (cid u : Nat) (c : Connection)
    (h : getConnectionById db cid = some c) :
    (((acceptConnection db cid u).httpStatus = 200 ∧
        getConnectionById (acceptConnection db cid u).db cid =
          some { c with status := ConnStatus.accepted }) ↔
      (c.connectedUserId = u ∧ c.status = ConnStatus.pending)) ∧
    (c.connectedUserId ≠ u →
      acceptConnection db cid u = { httpStatus := 403, db := db }) ∧
    (c.connectedUserId = u → c.status ≠ ConnStatus.pending →
      acceptConnection db cid u = { httpStatus := 400, db := db }) := by
  by_cases hrec : c.connectedUserId = u
  · by_cases hp : c.status = ConnStatus.pending
    · simp [acceptConnection, h, hrec, hp]
      simpa [hrec] using getConnectionById_update db cid c ConnStatus.accepted h
    · simp [acceptConnection, h, hrec, hp]
  · simp [acceptConnection, h, hrec]

def connC1 : Connection :=
  { id := 0, userId := 1, connectedUserId := 2, status := ConnStatus.pending }

def dbC1 : ConnDb := { rows := [connC1], nextId := 1 }

/-- Witness for C1 on a one-row table: user 2 accepts the pending request
from user 1. -/
theorem C1_accept_spec_witness :
    (((acceptConnection dbC1 0 2).httpStatus = 200 ∧
        getConnectionById (acceptConnection dbC1 0 2).db 0 =
          some { connC1 with status := ConnStatus.accepted }) ↔
      (connC1.connectedUserId = 2 ∧ connC1.status = ConnStatus.pending)) ∧
    (connC1.connectedUserId ≠ 2 →
      acceptConnection dbC1 0 2 = { httpStatus := 403, db := dbC1 }) ∧
    (connC1.connectedUserId = 2 → connC1.status ≠ ConnStatus.pending →
      acceptConnection dbC1 0 2 = { httpStatus := 400, db := dbC1 }) :=
  C1_accept_spec dbC1 0 2 connC1 (by decide)

def connC2 : Connection :=
  { id := 0, userId := 1, connectedUserId := 2, status := ConnStatus.accepted }

def dbC2 : ConnDb := { rows := [connC2], nextId := 1 }

/-- Claim C2 counterexample: user 2 is the recipient of row 0, yet rejecting
the already-accepted row fails with HTTP 400 and leaves the table unchanged,
whereas the claim says Reject succeeds whenever the acting user is the
recipient. -/
theorem C2_reject_counterexample :
    connC2.connectedUserId = 2 ∧
    rejectConnection dbC2 0 2 = { httpStatus := 400, db := dbC2 } ∧
    ¬ (rejectConnection dbC2 0 2).httpStatus = 200 := by decide

/-- Claim C2 (amended): Reject succeeds (HTTP 200, row transitions to
rejected) iff the row is still pending and the acting user is its recipient
or its initiator; on any failure the table is unchanged. -/
theorem C2_reject_amended (db : ConnDb) (cid u : Nat) (c : Connection)
    (h : getConnectionById db cid = some c) :
    (((rejectConnection db cid u).httpStatus = 200 ∧
        getConnectionById (rejectConnection db cid u).db cid =
          some { c with status := ConnStatus.rejected }) ↔
      (c.status = ConnStatus.pending ∧ (c.connectedUserId = u ∨ c.userId = u))) ∧
    ((rejectConnection db cid u).httpStatus ≠ 200 →
      (rejectConnection db cid u).db = db) := by
  by_cases hrec : c.connectedUserId = u
  · by_cases hp : c.status = ConnStatus.pending
    · simp [rejectConnection, h, hrec, hp]
      simpa [hrec] using getConnectionById_update db cid c ConnStatus.rejected h
    · simp [rejectConnection, h, hrec, hp]
  · by_cases hini : c.userId = u
    · by_cases hp : c.status = ConnStatus.pending
      · simp [rejectConnection, h, hrec, hini, hp]
        simpa [hini] using getConnectionById_update db cid c ConnStatus.rejected h
      · simp [rejectConnection, h, hrec, hini, hp]
    · simp [rejectConnection, h, hrec, hini]

def connC2w : Connection :=
  { id := 0, userId := 3, connectedUserId := 4, status := ConnStatus.pending }

def dbC2w : ConnDb := { rows := [connC2w], nextId := 1 }

/-- Witness for the amended C2 on a one-row table: user 4 rejects the pending
request from user 3. -/
theorem C2_reject_amended_witness :
    (((rejectConnection dbC2w 0 4).httpStatus = 200 ∧
        getConnectionById (rejectConnection dbC2w 0 4).db 0 =
          some { connC2w with status := ConnStatus.rejected }) ↔
      (connC2w.status = ConnStatus.pending ∧
        (connC2w.connectedUserId = 4 ∨ connC2w.userId = 4))) ∧
    ((rejectConnection dbC2w 0 4).httpStatus ≠ 200 →
      (rejectConnection dbC2w 0 4).db = dbC2w) :=
  C2_reject_amended dbC2w 0 4 connC2w (by decide)

/-- The per-row transition relation the spec allows: a row is unchanged, or a
pending row moves to accepted or to rejected with all other fields intact. -/
def statusStep (c c' : Connection) : Prop :=
  c' = c ∨ (c.status = ConnStatus.pending ∧
    (c' = { c with status := ConnStatus.accepted } ∨
     c' = { c with status := ConnStatus.rejected }))

theorem statusStep_refl (c : Connection) : statusStep c c := Or.inl rfl

theorem statusStep_trans {a b c : Connection} (h1 : statusStep a b)
    (h2 : statusStep b c) : statusStep a c := by
  rcases h1 with rfl | ⟨hp, hb⟩
  · exact h2
  · rcases hb with rfl | rfl
    · rcases h2 with rfl | ⟨hp2, _⟩
      · exact Or.inr ⟨hp, Or.inl rfl⟩
      · simp at hp2
    · rcases h2 with rfl | ⟨hp2, _⟩
      · exact Or.inr ⟨hp, Or.inr rfl⟩
      · simp at hp2

/-- Serial-id discipline maintained by the store: every row id is below the
sequence value and ids are pairwise distinct. -/
def WellFormed (db : ConnDb) : Prop :=
  (∀ c ∈ db.rows, c.id < db.nextId) ∧ (db.rows.map (fun c => c.id)).Nodup

theorem wellFormed_empty : WellFormed emptyConnDb := by
  constructor <;> simp [emptyConnDb]

theorem wf_inj {db : ConnDb} (h : WellFormed db) {a b : Connection}
    (ha : a ∈ db.rows) (hb : b ∈ db.rows) (hid : a.id = b.id) : a = b :=
  List.inj_on_of_nodup_map h.2 ha hb hid

theorem update_preserves_id (cid : Nat) (s : ConnStatus) (x : Connection) :
    (if x.id = cid then { x with status := s } else x).id = x.id := by
  split <;> rfl

theorem updateConnectionStatus_rows_map_id (db : ConnDb) (cid : Nat) (s : ConnStatus) :
    ((updateConnectionStatus db cid s).rows.map (fun c => c.id)) =
      db.rows.map (fun c => c.id) := by
  simp only [updateConnectionStatus, List.map_map]
  exact List.map_congr_left fun a _ => update_preserves_id cid s a

theorem wellFormed_update (db : ConnDb) (cid : Nat) (s : ConnStatus)
    (h : WellFormed db) : WellFormed (updateConnectionStatus db cid s) := by
  constructor
  · intro c hc
    rcases List.mem_map.mp hc with ⟨d, hd, rfl⟩
    have : (if d.id = cid then { d with status := s } else d).id = d.id :=
      update_preserves_id cid s d
    rw [this]
    exact h.1 d hd
  · rw [updateConnectionStatus_rows_map_id]
    exact h.2

theorem wellFormed_create (db : ConnDb) (i r : Nat) (h : WellFormed db) :
    WellFormed (createConnection db i r) := by
  constructor
  · intro c hc
    rcases List.mem_append.mp hc with hc | hc
    · exact Nat.lt_succ_of_lt (h.1 c hc)
    · simp only [List.mem_singleton] at hc
      subst hc
      exact Nat.lt_succ_self _
  · simp only [createConnection, List.map_append, List.map_cons, List.map_nil]
    rw [List.nodup_append]
    refine ⟨h.2, List.nodup_singleton _, ?_⟩
    intro a ha hb
    simp only [List.mem_singleton] at hb
    rcases List.mem_map.mp ha with ⟨d, hd, rfl⟩
    exact absurd hb (Nat.ne_of_lt (h.1 d hd))

/-- The accept handler either leaves the table untouched, or the addressed row
exists, is pending, is addressed to the acting user, and gets updated. -/
theorem accept_db_cases (db : ConnDb) (cid u : Nat) :
    (acceptConnection db cid u).db = db ∨
    (∃ c₀, getConnectionById db cid = some c₀ ∧
      c₀.status = ConnStatus.pending ∧ c₀.connectedUserId = u ∧
      (acceptConnection db cid u).db = updateConnectionStatus db cid ConnStatus.accepted) := by
  rcases hfind : getConnectionById db cid with _ | c
  · left
    simp [acceptConnection, hfind]
  · by_cases hrec : c.connectedUserId = u
    · by_cases hp : c.status = ConnStatus.pending
      · right
        exact ⟨c, rfl, hp, hrec, by simp [acceptConnection, hfind, hrec, hp]⟩
      · left
        simp [acceptConnection, hfind, hrec, hp]
    · left
      simp [acceptConnection, hfind, hrec]

/-- The reject handler either leaves the table untouched, or the addressed row
exists, is pending, and gets updated. -/
theorem reject_db_cases (db : ConnDb) (cid u : Nat) :
    (rejectConnection db cid u).db = db ∨
    (∃ c₀, getConnectionById db cid = some c₀ ∧
      c₀.status = ConnStatus.pending ∧
      (rejectConnection db cid u).db = updateConnectionStatus db cid ConnStatus.rejected) := by
  rcases hfind : getConnectionById db cid with _ | c
  · left
    simp [rejectConnection, hfind]
  · by_cases hp : c.status = ConnStatus.pending
    · by_cases hrec : c.connectedUserId = u
      · right
        exact ⟨c, rfl, hp, by simp [rejectConnection, hfind, hrec, hp]⟩
      · by_cases hini : c.userId = u
        · right
          exact ⟨c, rfl, hp, by simp [rejectConnection, hfind, hrec, hini, hp]⟩
        · left
          simp [rejectConnection, hfind, hrec, hini]
    · by_cases hrec : c.connectedUserId = u
      · left
        simp [rejectConnection, hfind, hrec, hp]
      · left
        simp [rejectConnection, hfind, hrec, hp]

theorem wellFormed_applyOp (db : ConnDb) (op : ConnOp) (h : WellFormed db) :
    WellFormed (applyOp db op) := by
  cases op with
  | request i r => exact wellFormed_create db i r h
  | accept cid u =>
    rcases accept_db_cases db cid u with heq | ⟨_, _, _, _, heq⟩
    · rw [applyOp, heq]; exact h
    · rw [applyOp, heq]; exact wellFormed_update db cid _ h
  | reject cid u =>
    rcases reject_db_cases db cid u with heq | ⟨_, _, _, heq⟩
    · rw [applyOp, heq]; exact h
    · rw [applyOp, heq]; exact wellFormed_update db cid _ h

/-- A row present before an update is present afterwards, with the same id,
and its change (if any) is a legal status step. -/
theorem update_persist {db : ConnDb} {cid : Nat} {c₀ c : Connection} {s : ConnStatus}
    (h : WellFormed db) (hc : c ∈ db.rows)
    (hfind : getConnectionById db cid = some c₀) (hp : c₀.status = ConnStatus.pending)
    (hs : s = ConnStatus.accepted ∨ s = ConnStatus.rejected) :
    ∃ c' ∈ (updateConnectionStatus db cid s).rows, c'.id = c.id ∧ statusStep c c' := by
  refine ⟨if c.id = cid then { c with status := s } else c,
    List.mem_map_of_mem _ hc, update_preserves_id cid s c, ?_⟩
  by_cases hcid : c.id = cid
  · have hc₀mem : c₀ ∈ db.rows := List.mem_of_find?_eq_some hfind
    have hc₀id : c₀.id = cid := by
      have := List.find?_some hfind
      simpa using this
    have hcc₀ : c = c₀ := wf_inj h hc hc₀mem (by rw [hcid, hc₀id])
    subst hcc₀
    rw [if_pos hcid]
    rcases hs with rfl | rfl
    · exact Or.inr ⟨hp, Or.inl rfl⟩
    · exact Or.inr ⟨hp, Or.inr rfl⟩
  · rw [if_neg hcid]
    exact statusStep_refl c

/-- Every row survives one documented operation with its id intact, changing
at most by a legal status step. -/
theorem applyOp_persist (db : ConnDb) (op : ConnOp) (h : WellFormed db)
    (c : Connection) (hc : c ∈ db.rows) :
    ∃ c' ∈ (applyOp db op).rows, c'.id = c.id ∧ statusStep c c' := by
  cases op with
  | request i r =>
    exact ⟨c, List.mem_append_left _ hc, rfl, statusStep_refl c⟩
  | accept cid u =>
    rcases accept_db_cases db cid u with heq | ⟨c₀, hfind, hp, _, heq⟩
    · rw [applyOp, heq]
      exact ⟨c, hc, rfl, statusStep_refl c⟩
    · rw [applyOp, heq]
      exact update_persist h hc hfind hp (Or.inl rfl)
  | reject cid u =>
    rcases reject_db_cases db cid u with heq | ⟨c₀, hfind, hp, heq⟩
    · rw [applyOp, heq]
      exact ⟨c, hc, rfl, statusStep_refl c⟩
    · rw [applyOp, heq]
      exact update_persist h hc hfind hp (Or.inr rfl)

theorem runOps_statusStep (ops : List ConnOp) (db : ConnDb) (h : WellFormed db)
    (c c' : Connection) (hc : c ∈ db.rows) (hc' : c' ∈ (runOps db ops).rows)
    (hid : c.id = c'.id) : statusStep c c' := by
  induction ops generalizing db c with
  | nil =>
    exact Or.inl (wf_inj h hc' hc hid.symm)
  | cons op ops ih =>
    rcases applyOp_persist db op h c hc with ⟨c₁, hmem, hid₁, hstep₁⟩
    exact statusStep_trans hstep₁
      (ih (applyOp db op) (wellFormed_applyOp db op h) c₁ hmem hc'
        (hid₁.trans hid))

theorem reachable_wellFormed {db : ConnDb} (h : Reachable db) : WellFormed db := by
  rcases h with ⟨ops, rfl⟩
  have : ∀ (ops : List ConnOp) (d : ConnDb), WellFormed d → WellFormed (runOps d ops) := by
    intro ops
    induction ops with
    | nil => intro d hd; exact hd
    | cons op ops ih => intro d hd; exact ih (applyOp d op) (wellFormed_applyOp d op hd)
  exact this ops emptyConnDb wellFormed_empty

/-- Claim C3: from any reachable table state, over any further sequence of
documented operations, a connection row only ever changes pending→accepted or
pending→rejected; accepted and rejected rows never change again and no row
returns to pending. -/
theorem C3_status_transitions (db : ConnDb) (hdb : Reachable db)
    (ops : List ConnOp) (c c' : Connection) (hc : c ∈ db.rows)
    (hc' : c' ∈ (runOps db ops).rows) (hid : c.id = c'.id) : statusStep c c' :=
  runOps_statusStep ops db (reachable_wellFormed hdb) c c' hc hc' hid

/-- Witness for C3: the pending row created by `request 1 2` steps to
accepted after user 2 accepts it. -/
theorem C3_status_transitions_witness :
    statusStep
      { id := 0, userId := 1, connectedUserId := 2, status := ConnStatus.pending }
      { id := 0, userId := 1, connectedUserId := 2, status := ConnStatus.accepted } :=
  C3_status_transitions (runOps emptyConnDb [ConnOp.request 1 2])
    ⟨[ConnOp.request 1 2], rfl⟩ [ConnOp.accept 0 2] _ _
    (by decide) (by decide) (by decide)

/-- Claim C6 counterexample: `createConnection` does not refuse a self
request and the recipient of a self request is the requester, so
`Request(1,1)` followed by `Accept` by user 1 yields an accepted
self-connection. -/
theorem C6_self_accept_counterexample :
    (runOps emptyConnDb [ConnOp.request 1 1, ConnOp.accept 0 1]).rows =
      [{ id := 0, userId := 1, connectedUserId := 1,
         status := ConnStatus.accepted }] ∧
    ¬(∀ c ∈ (runOps emptyConnDb [ConnOp.request 1 1, ConnOp.accept 0 1]).rows,
        ¬(c.status = ConnStatus.accepted ∧ c.userId = c.connectedUserId)) := by
  decide

/-- An operation that is not a self-request. -/
def opNoSelfRequest : ConnOp → Prop
  | ConnOp.request i r => i ≠ r
  | ConnOp.accept _ _ => True
  | ConnOp.reject _ _ => True

instance decOpNoSelfRequest : DecidablePred opNoSelfRequest := by
  intro op
  cases op with
  | request i r => exact inferInstanceAs (Decidable (i ≠ r))
  | accept cid u => exact inferInstanceAs (Decidable True)
  | reject cid u => exact inferInstanceAs (Decidable True)

/-- No row of the table is a self-connection. -/
def noSelfRow (db : ConnDb) : Prop :=
  ∀ c ∈ db.rows, c.userId ≠ c.connectedUserId

theorem update_preserves_endpoints (cid : Nat) (s : ConnStatus) (x : Connection) :
    (if x.id = cid then { x with status := s } else x).userId = x.userId ∧
    (if x.id = cid then { x with status := s } else x).connectedUserId =
      x.connectedUserId := by
  split <;> exact ⟨rfl, rfl⟩

theorem noSelfRow_update (db : ConnDb) (cid : Nat) (s : ConnStatus)
    (h : noSelfRow db) : noSelfRow (updateConnectionStatus db cid s) := by
  intro c hc
  rcases List.mem_map.mp hc with ⟨d, hd, rfl⟩
  rcases update_preserves_endpoints cid s d with ⟨h1, h2⟩
  rw [h1, h2]
  exact h d hd

theorem noSelfRow_applyOp (db : ConnDb) (op : ConnOp) (hop : opNoSelfRequest op)
    (h : noSelfRow db) : noSelfRow (applyOp db op) := by
  cases op with
  | request i r =>
    intro c hc
    rcases List.mem_append.mp hc with hc | hc
    · exact h c hc
    · simp only [List.mem_singleton] at hc
      subst hc
      exact hop
  | accept cid u =>
    rcases accept_db_cases db cid u with heq | ⟨_, _, _, _, heq⟩
    · rw [applyOp, heq]; exact h
    · rw [applyOp, heq]; exact noSelfRow_update db cid _ h
  | reject cid u =>
    rcases reject_db_cases db cid u with heq | ⟨_, _, _, heq⟩
    · rw [applyOp, heq]; exact h
    · rw [applyOp, heq]; exact noSelfRow_update db cid _ h

/-- Claim C6 (amended): as long as no documented operation is a connection
request from a user to themself, no reachable state contains a
self-connection row at all — in particular no accepted one. The unrestricted
claim fails because a self request is accepted by its own sender. -/
theorem C6_no_self_accept_amended (ops : List ConnOp)
    (h : ∀ op ∈ ops, opNoSelfRequest op) :
    ∀ c ∈ (runOps emptyConnDb ops).rows,
      ¬(c.status = ConnStatus.accepted ∧ c.userId = c.connectedUserId) := by
  have key : ∀ (ops : List ConnOp) (db : ConnDb),
      (∀ op ∈ ops, opNoSelfRequest op) → noSelfRow db →
      noSelfRow (runOps db ops) := by
    intro ops
    induction ops with
    | nil => intro db _ hdb; exact hdb
    | cons op ops ih =>
      intro db hops hdb
      exact ih (applyOp db op) (fun o ho => hops o (List.mem_cons_of_mem _ ho))
        (noSelfRow_applyOp db op (hops op (List.mem_cons_self _ _)) hdb)
  intro c hc hbad
  exact key ops emptyConnDb h (by intro c hc; simp [emptyConnDb] at hc) c hc hbad.2

/-- Witness for the amended C6: after `request 1 2; accept by 2`, the accepted
row is not a self-connection. -/
theorem C6_no_self_accept_amended_witness :
    ¬(({ id := 0, userId := 1, connectedUserId := 2,
          status := ConnStatus.accepted } : Connection).status = ConnStatus.accepted ∧
      ({ id := 0, userId := 1, connectedUserId := 2,
          status := ConnStatus.accepted } : Connection).userId =
        ({ id := 0, userId := 1, connectedUserId := 2,
            status := ConnStatus.accepted } : Connection).connectedUserId) :=
  C6_no_self_accept_amended [ConnOp.request 1 2, ConnOp.accept 0 2] (by decide)
    { id := 0, userId := 1, connectedUserId := 2, status := ConnStatus.accepted }
    (by decide)

/-- A row of the `users` table (only the id matters to the claims;
`username` stands in for the remaining profile columns). -/
structure User where
  id : Nat
  username : String
deriving DecidableEq

/-- First half of `DrizzleStorage.getMutualConnections`: the accepted-connection
counterpart ids of a user, both row directions checked, collected into a set
(the JS code builds a `Set`; only membership is used downstream). -/
def acceptedCounterpartIds (db : ConnDb) (userId : Nat) : List Nat :=
  ((db.rows.filter (fun c =>
      (c.userId == userId || c.connectedUserId == userId) &&
        c.status == ConnStatus.accepted)).map
    (fun c => if c.userId == userId then c.connectedUserId else c.userId)).dedup

/-- `DrizzleStorage.getMutualConnections`: intersect the two counterpart-id
sets, return early on an empty intersection, otherwise fetch the user rows
whose id is in the intersection. -/
def getMutualConnections (users : List User) (db : ConnDb) (u1 u2 : Nat) :
    List User :=
  let ids1 := acceptedCounterpartIds db u1
  let ids2 := acceptedCounterpartIds db u2
  let mutualIds := ids1.filter (fun a => ids2.contains a)
  if mutualIds.isEmpty then []
  else users.filter (fun u => mutualIds.contains u.id)

theorem contains_inter_comm (l1 l2 : List Nat) (a : Nat) :
    (l1.filter (fun x => l2.contains x)).contains a =
      (l2.filter (fun x => l1.contains x)).contains a := by
  simp [List.mem_filter, Bool.and_comm]

theorem isEmpty_inter_comm (l1 l2 : List Nat) :
    (l1.filter (fun x => l2.contains x)).isEmpty =
      (l2.filter (fun x => l1.contains x)).isEmpty := by
  apply Bool.coe_iff_coe.mp
  simp only [List.isEmpty_iff, List.eq_nil_iff_forall_not_mem, List.mem_filter]
  constructor
  · intro h x hx
    exact h x ⟨(List.elem_iff).mp hx.2, (List.elem_iff).mpr hx.1⟩
  · intro h x hx
    exact h x ⟨(List.elem_iff).mp hx.2, (List.elem_iff).mpr hx.1⟩

/-- Claim C5: `getMutualConnections` is symmetric in its two user arguments —
the returned user rows are the same list either way. -/
theorem C5_mutual_connections_symm (users : List User) (db : ConnDb)
    (u1 u2 : Nat) :
    getMutualConnections users db u1 u2 = getMutualConnections users db u2 u1 := by
  simp only [getMutualConnections]
  rw [isEmpty_inter_comm]
  split
  · rfl
  · exact List.filter_congr fun u _ =>
      contains_inter_comm (acceptedCounterpartIds db u1)
        (acceptedCounterpartIds db u2) u.id

/-- `DrizzleStorage.getUserSuggestions`: collect every connection row touching
the user (either direction, any status), flatten both endpoints of those rows
into an exclusion set together with the user themself, and return all users
whose id is not excluded. -/
def getUserSuggestions (users : List User) (db : ConnDb) (userId : Nat) :
    List User :=
  let existingConnections := db.rows.filter (fun c =>
    c.userId == userId || c.connectedUserId == userId)
  let connectedUserIds :=
    userId :: existingConnections.flatMap (fun c => [c.userId, c.connectedUserId])
  users.filter (fun u => !(connectedUserIds.contains u.id))

theorem suggestions_excluded_iff (db : ConnDb) (userId x : Nat) :
    (x ∈ userId ::
        (db.rows.filter (fun c =>
          c.userId == userId || c.connectedUserId == userId)).flatMap
          (fun c => [c.userId, c.connectedUserId])) ↔
      (x = userId ∨ ∃ c ∈ db.rows,
        (c.userId = userId ∨ c.connectedUserId = userId) ∧
        (c.userId = x ∨ c.connectedUserId = x)) := by
  simp [List.mem_flatMap, List.mem_filter]
  aesop

/-- Claim C7: a user u appears in Suggestions(userId) exactly when u is a user
row, u is not userId, and u is not an endpoint of any connection row involving
userId, regardless of that row's status. -/
theorem C7_suggestions_spec (users : List User) (db : ConnDb) (userId : Nat)
    (u : User) :
    u ∈ getUserSuggestions users db userId ↔
      (u ∈ users ∧ u.id ≠ userId ∧
        ∀ c ∈ db.rows, (c.userId = userId ∨ c.connectedUserId = userId) →
          c.userId ≠ u.id ∧ c.connectedUserId ≠ u.id) := by
  constructor
  · intro hmem
    rcases List.mem_filter.mp hmem with ⟨hu, hp⟩
    simp only [Bool.not_eq_true', List.elem_eq_mem, decide_eq_false_iff_not] at hp
    rw [suggestions_excluded_iff] at hp
    push_neg at hp
    exact ⟨hu, hp.1, hp.2⟩
  · rintro ⟨hu, hself, hconn⟩
    apply List.mem_filter.mpr
    refine ⟨hu, ?_⟩
    simp only [Bool.not_eq_true', List.elem_eq_mem, decide_eq_false_iff_not]
    rw [suggestions_excluded_iff]
    push_neg
    exact ⟨hself, hconn⟩

/-- A row of the `likes` table (server/db/schema.ts), which carries the unique
index `likes_post_user_unique_idx` on (postId, userId). -/
structure Like where
  id : Nat
  postId : Nat
  userId : Nat
deriving DecidableEq

/-- Whether a like row for the (post, user) pair exists — the situation in
which the unique index makes an insert fail with PostgreSQL error 23505. -/
def hasLike (likes : List Like) (postId userId : Nat) : Bool :=
  likes.any (fun l => l.postId == postId && l.userId == userId)

/-- Outcome of `DrizzleStorage.createLike`: either the inserted row, or the
uniqueness violation reported as `alreadyExists`. -/
inductive CreateLikeOutcome where
  | created (newLike : Like)
  | alreadyExists
deriving DecidableEq

/-- `DrizzleStorage.createLike`: INSERT that catches error 23505 (raised by
the unique index exactly when a row for the pair exists) and reports
`alreadyExists`. -/
def createLike (likes : List Like) (nextId postId userId : Nat) :
    CreateLikeOutcome × List Like :=
  if hasLike likes postId userId then
    (CreateLikeOutcome.alreadyExists, likes)
  else
    (CreateLikeOutcome.created { id := nextId, postId := postId, userId := userId },
      likes ++ [{ id := nextId, postId := postId, userId := userId }])

/-- `DrizzleStorage.deleteLike`: DELETE WHERE postId = ? AND userId = ?. -/
def deleteLike (likes : List Like) (postId userId : Nat) : List Like :=
  likes.filter (fun l => !(l.postId == postId && l.userId == userId))

/-- `POST /api/posts/:postId/like` (routes.ts): try to create the like; when
it already exists, delete it instead and report liked = false; otherwise
report liked = true. Returns the reported flag and the new table. -/
def likePost (likes : List Like) (nextId postId userId : Nat) :
    Bool × List Like :=
  match createLike likes nextId postId userId with
  | (CreateLikeOutcome.alreadyExists, _) =>
    (false, deleteLike likes postId userId)
  | (CreateLikeOutcome.created _, likes') => (true, likes')

theorem likePost_of_not_has {likes : List Like} {postId userId : Nat}
    (nextId : Nat) (h : hasLike likes postId userId = false) :
    likePost likes nextId postId userId =
      (true, likes ++ [{ id := nextId, postId := postId, userId := userId }]) := by
  simp [likePost, createLike, h]

theorem likePost_of_has {likes : List Like} {postId userId : Nat}
    (nextId : Nat) (h : hasLike likes postId userId = true) :
    likePost likes nextId postId userId =
      (false, deleteLike likes postId userId) := by
  simp [likePost, createLike, h]

theorem hasLike_append_self (likes : List Like) (n postId userId : Nat) :
    hasLike (likes ++ [{ id := n, postId := postId, userId := userId }])
      postId userId = true := by
  simp [hasLike]

theorem hasLike_deleteLike (likes : List Like) (postId userId : Nat) :
    hasLike (deleteLike likes postId userId) postId userId = false := by
  simp only [hasLike, deleteLike, List.any_filter]
  simp only [List.any_eq_false]
  intro x _
  cases hb : (x.postId == postId && x.userId == userId)
  · simp [hb]
  · simp [hb]

/-- Claim C4: starting from a state with no like row for the pair, the like
endpoint toggles — first call reports liked and leaves a row, second call
reports unliked and removes it, third call reports liked again; the
uniqueness violation on a duplicate insert is what redirects the second call
into an unlike. -/
theorem C4_like_toggle (likes : List Like) (n1 n2 n3 postId userId : Nat)
    (h : hasLike likes postId userId = false) :
    (likePost likes n1 postId userId).1 = true ∧
    hasLike (likePost likes n1 postId userId).2 postId userId = true ∧
    (likePost (likePost likes n1 postId userId).2 n2 postId userId).1 = false ∧
    hasLike (likePost (likePost likes n1 postId userId).2 n2 postId userId).2
      postId userId = false ∧
    (likePost (likePost (likePost likes n1 postId userId).2 n2 postId userId).2
      n3 postId userId).1 = true ∧
    hasLike (likePost (likePost (likePost likes n1 postId userId).2 n2 postId
      userId).2 n3 postId userId).2 postId userId = true := by
  rw [likePost_of_not_has n1 h]
  have h1 := hasLike_append_self likes n1 postId userId
  rw [likePost_of_has n2 h1]
  have h2 := hasLike_deleteLike
    (likes ++ [{ id := n1, postId := postId, userId := userId }]) postId userId
  rw [likePost_of_not_has n3 h2]
  exact ⟨rfl, h1, rfl, h2, rfl,
    hasLike_append_self _ n3 postId userId⟩

/-- Witness for C4 on the empty likes table: user 2 toggles post 1 three
times. -/
theorem C4_like_toggle_witness :
    (likePost [] 0 1 2).1 = true ∧
    hasLike (likePost [] 0 1 2).2 1 2 = true ∧
    (likePost (likePost [] 0 1 2).2 1 1 2).1 = false ∧
    hasLike (likePost (likePost [] 0 1 2).2 1 1 2).2 1 2 = false ∧
    (likePost (likePost (likePost [] 0 1 2).2 1 1 2).2 2 1 2).1 = true ∧
    hasLike (likePost (likePost (likePost [] 0 1 2).2 1 1 2).2 2 1 2).2 1 2 = true :=
  C4_like_toggle [] 0 1 2 1 2 (by decide)

/-- A row of the `saved_posts` table. -/
structure SavedPost where
  id : Nat
  postId : Nat
  userId : Nat
deriving DecidableEq

/-- `DrizzleStorage.savePost`: look up an existing saved-post row for the
(post, user) pair; with isSaved = true insert a fresh row only when none
exists; with isSaved = false delete the found row by its id. -/
def savePost (saved : List SavedPost) (nextId currentUserId postId : Nat)
    (isSaved : Bool) : List SavedPost :=
  match saved.find? (fun s => s.postId == postId && s.userId == currentUserId) with
  | some s =>
    if isSaved then saved
    else saved.filter (fun t => t.id != s.id)
  | none =>
    if isSaved then
      saved ++ [{ id := nextId, postId := postId, userId := currentUserId }]
    else saved

/-- At most one saved-post row per (post, user) pair. -/
def pairUniqueSaved (saved : List SavedPost) : Prop :=
  saved.Pairwise (fun a b => ¬(a.postId = b.postId ∧ a.userId = b.userId))

theorem pairUniqueSaved_symm :
    Symmetric (fun a b : SavedPost => ¬(a.postId = b.postId ∧ a.userId = b.userId)) := by
  intro a b hab hba
  exact hab ⟨hba.1.symm, hba.2.symm⟩

theorem find?_savePost_delete {saved : List SavedPost} {userId postId : Nat}
    {s : SavedPost} (hinv : pairUniqueSaved saved)
    (hfind : saved.find? (fun t => t.postId == postId && t.userId == userId) = some s) :
    (saved.filter (fun t => t.id != s.id)).find?
      (fun t => t.postId == postId && t.userId == userId) = none := by
  rw [List.find?_eq_none]
  intro t ht hpred
  rcases List.mem_filter.mp ht with ⟨htmem, hid⟩
  have hsmem : s ∈ saved := List.mem_of_find?_eq_some hfind
  have hspred := List.find?_some hfind
  have hts : t ≠ s := by
    intro h
    subst h
    simp at hid
  have hR := List.Pairwise.forall pairUniqueSaved_symm hinv htmem hsmem hts
  apply hR
  have h1 : t.postId = postId ∧ t.userId = userId := by simpa using hpred
  have h2 : s.postId = postId ∧ s.userId = userId := by simpa using hspred
  exact ⟨h1.1.trans h2.1.symm, h1.2.trans h2.2.symm⟩

/-- Claim C9: `savePost` is idempotent on states with at most one saved-post
row per pair, and it preserves that at-most-one property (so it never creates
a duplicate pair itself). -/
theorem C9_savePost_idempotent (saved : List SavedPost)
    (n1 n2 userId postId : Nat) (flag : Bool)
    (hinv : pairUniqueSaved saved) :
    savePost (savePost saved n1 userId postId flag) n2 userId postId flag =
      savePost saved n1 userId postId flag ∧
    pairUniqueSaved (savePost saved n1 userId postId flag) := by
  rcases hfind : saved.find? (fun s => s.postId == postId && s.userId == userId)
    with _ | s
  · cases flag with
    | false =>
      constructor
      · simp [savePost, hfind]
      · simpa [savePost, hfind] using hinv
    | true =>
      have heq : savePost saved n1 userId postId true =
          saved ++ [({ id := n1, postId := postId, userId := userId } : SavedPost)] := by
        simp [savePost, hfind]
      have happend :
          (saved ++ [({ id := n1, postId := postId, userId := userId } : SavedPost)]).find?
            (fun t => t.postId == postId && t.userId == userId) =
            some { id := n1, postId := postId, userId := userId } := by
        rw [List.find?_append, hfind]
        simp
      constructor
      · rw [heq, savePost, happend]
        simp
      · rw [heq, pairUniqueSaved, List.pairwise_append]
        refine ⟨hinv, List.pairwise_singleton _ _, ?_⟩
        intro a ha b hb
        simp only [List.mem_singleton] at hb
        subst hb
        have hnone := List.find?_eq_none.mp hfind a ha
        intro hmatch
        exact hnone (by simp [hmatch.1, hmatch.2])
  · cases flag with
    | true =>
      constructor
      · simp [savePost, hfind]
      · simpa [savePost, hfind] using hinv
    | false =>
      have hdel := find?_savePost_delete hinv hfind
      have heq : savePost saved n1 userId postId false =
          saved.filter (fun t => t.id != s.id) := by
        simp [savePost, hfind]
      constructor
      · rw [heq, savePost, hdel]
        simp
      · rw [heq]
        exact hinv.sublist (List.filter_sublist saved)

/-- Witness for C9 on the empty saved-posts table: user 2 saves post 1. -/
theorem C9_savePost_idempotent_witness :
    (savePost (savePost [] 0 2 1 true) 1 2 1 true = savePost [] 0 2 1 true ∧
      pairUniqueSaved (savePost [] 0 2 1 true)) :=
  C9_savePost_idempotent [] 0 1 2 1 true (by simp [pairUniqueSaved])

/-- A row of the `document_sharing` table (its serial id plays no role in
the claims and is omitted). -/
structure DocumentSharing where
  documentId : Nat
  userId : Nat
deriving DecidableEq

/-- The rows `DrizzleStorage.shareDocument` inserts: the requested user ids
minus those that already share the document, each paired with the document. -/
def newSharesFor (shares : List DocumentSharing) (documentId : Nat)
    (userIds : List Nat) : List DocumentSharing :=
  let existingShares := shares.filter (fun s =>
    s.documentId == documentId && userIds.contains s.userId)
  let alreadySharedUserIds := existingShares.map (fun s => s.userId)
  (userIds.filter (fun uid => !(alreadySharedUserIds.contains uid))).map
    (fun uid => { documentId := documentId, userId := uid })

/-- `DrizzleStorage.shareDocument`: look up the existing sharing rows for the
document among the requested user ids and insert rows only for the rest. -/
def shareDocument (shares : List DocumentSharing) (documentId : Nat)
    (userIds : List Nat) : List DocumentSharing :=
  shares ++ newSharesFor shares documentId userIds

/-- Claim C10 counterexample: a duplicated id in the input list yields two
identical (documentId, userId) sharing rows in one call. -/
theorem C10_shareDocument_counterexample :
    shareDocument [] 7 [5, 5] =
      [{ documentId := 7, userId := 5 }, { documentId := 7, userId := 5 }] ∧
    ¬ (shareDocument [] 7 [5, 5]).Nodup := by
  decide

theorem mem_alreadyShared (shares : List DocumentSharing) (d : Nat)
    (uids : List Nat) (uid : Nat) :
    uid ∈ ((shares.filter (fun s =>
        s.documentId == d && uids.contains s.userId)).map (fun s => s.userId)) ↔
      ∃ t ∈ shares, t.documentId = d ∧ t.userId ∈ uids ∧ t.userId = uid := by
  simp [List.mem_map, List.mem_filter]
  aesop

theorem mem_newSharesFor (shares : List DocumentSharing) (d : Nat)
    (uids : List Nat) (s : DocumentSharing) :
    s ∈ newSharesFor shares d uids ↔
      (s.documentId = d ∧ s.userId ∈ uids ∧
        ¬∃ t ∈ shares, t.documentId = d ∧ t.userId = s.userId) := by
  simp only [newSharesFor, List.mem_map, List.mem_filter]
  constructor
  · rintro ⟨uid, ⟨huid, hnot⟩, rfl⟩
    refine ⟨rfl, huid, ?_⟩
    rintro ⟨t, ht, htd, htu⟩
    have : uid ∈ ((shares.filter (fun s =>
        s.documentId == d && uids.contains s.userId)).map (fun s => s.userId)) :=
      (mem_alreadyShared shares d uids uid).mpr ⟨t, ht, htd, htu ▸ huid, htu⟩
    have hcontains : ((shares.filter (fun s =>
        s.documentId == d && uids.contains s.userId)).map (fun s => s.userId)).contains uid = true :=
      List.elem_iff.mpr this
    rw [Bool.not_eq_true'] at hnot
    rw [hnot] at hcontains
    exact Bool.false_ne_true hcontains
  · rintro ⟨hd, hu, hnot⟩
    refine ⟨s.userId, ⟨hu, ?_⟩, ?_⟩
    · have : s.userId ∉ ((shares.filter (fun s =>
          s.documentId == d && uids.contains s.userId)).map (fun s => s.userId)) := by
        intro hmem
        rcases (mem_alreadyShared shares d uids s.userId).mp hmem with ⟨t, ht, htd, _, htu⟩
        exact hnot ⟨t, ht, htd, htu⟩
      rw [Bool.not_eq_true']
      cases hb : ((shares.filter (fun s =>
          s.documentId == d && uids.contains s.userId)).map (fun s => s.userId)).contains s.userId
      · rfl
      · exact absurd (List.elem_iff.mp hb) this
    · cases s
      simp only at hd
      rw [hd]

theorem newSharesFor_idem (shares : List DocumentSharing) (d : Nat)
    (uids : List Nat) :
    newSharesFor (shareDocument shares d uids) d uids = [] := by
  have hfilter : uids.filter (fun uid =>
      !((((shareDocument shares d uids).filter (fun s =>
        s.documentId == d && uids.contains s.userId)).map (fun s => s.userId)).contains uid)) = [] := by
    rw [List.filter_eq_nil_iff]
    intro uid huid
    have hmem : uid ∈ (((shareDocument shares d uids).filter (fun s =>
        s.documentId == d && uids.contains s.userId)).map (fun s => s.userId)) := by
      apply (mem_alreadyShared (shareDocument shares d uids) d uids uid).mpr
      by_cases hex : ∃ t ∈ shares, t.documentId = d ∧ t.userId = uid
      · rcases hex with ⟨t, ht, htd, htu⟩
        exact ⟨t, List.mem_append_left _ ht, htd, htu ▸ huid, htu⟩
      · refine ⟨{ documentId := d, userId := uid }, ?_, rfl, huid, rfl⟩
        apply List.mem_append_right
        exact (mem_newSharesFor shares d uids _).mpr ⟨rfl, huid, hex⟩
    rw [Bool.not_eq_true']
    intro hfalse
    have htrue : (((shareDocument shares d uids).filter (fun s =>
        s.documentId == d && uids.contains s.userId)).map (fun s => s.userId)).contains uid = true :=
      List.elem_iff.mpr hmem
    rw [htrue] at hfalse
    exact Bool.false_ne_true hfalse.symm
  simp only [newSharesFor]
  rw [hfilter]
  rfl

/-- Claim C10 (amended): shareDocument appends rows exactly for the requested
user ids that lack an existing sharing row for the document, leaving existing
rows untouched; when neither the table nor the requested id list contains
duplicates, the result has no duplicate (documentId, userId) row; and calling
it twice with the same arguments equals calling it once. The unrestricted
no-duplicate claim fails when the input id list repeats an id. -/
theorem C10_shareDocument_amended (shares : List DocumentSharing) (d : Nat)
    (uids : List Nat) :
    shareDocument shares d uids = shares ++ newSharesFor shares d uids ∧
    (∀ s ∈ newSharesFor shares d uids,
      s.documentId = d ∧ s.userId ∈ uids ∧
        ¬∃ t ∈ shares, t.documentId = d ∧ t.userId = s.userId) ∧
    (shares.Nodup → uids.Nodup → (shareDocument shares d uids).Nodup) ∧
    shareDocument (shareDocument shares d uids) d uids =
      shareDocument shares d uids := by
  refine ⟨rfl, fun s hs => (mem_newSharesFor shares d uids s).mp hs, ?_, ?_⟩
  · intro hshares huids
    rw [shareDocument, List.nodup_append]
    refine ⟨hshares, ?_, ?_⟩
    · apply List.Nodup.map
      · intro a b hab
        exact congrArg DocumentSharing.userId hab
      · exact huids.filter _
    · intro a ha hb
      rcases (mem_newSharesFor shares d uids a).mp hb with ⟨hd, _, hnot⟩
      exact hnot ⟨a, ha, hd, rfl⟩
  · rw [shareDocument, newSharesFor_idem, List.append_nil]

/-- Witness for the amended C10: document 7 already shared with user 9,
newly shared with user 5. -/
theorem C10_shareDocument_amended_witness :
    (shareDocument [{ documentId := 7, userId := 9 }] 7 [5] =
      [{ documentId := 7, userId := 9 }] ++
        newSharesFor [{ documentId := 7, userId := 9 }] 7 [5]) ∧
    (∀ s ∈ newSharesFor [{ documentId := 7, userId := 9 }] 7 [5],
      s.documentId = 7 ∧ s.userId ∈ [5] ∧
        ¬∃ t ∈ [({ documentId := 7, userId := 9 } : DocumentSharing)],
          t.documentId = 7 ∧ t.userId = s.userId) ∧
    (shareDocument [{ documentId := 7, userId := 9 }] 7 [5]).Nodup ∧
    shareDocument (shareDocument [{ documentId := 7, userId := 9 }] 7 [5]) 7 [5] =
      shareDocument [{ documentId := 7, userId := 9 }] 7 [5] := by
  have h := C10_shareDocument_amended [{ documentId := 7, userId := 9 }] 7 [5]
  exact ⟨h.1, h.2.1, h.2.2.1 (by decide) (by decide), h.2.2.2⟩

/-- The payload `jwt.verify` yields for a valid token. -/
structure AuthUser where
  id : Nat
  username : String
  role : String
deriving DecidableEq

/-- `authenticateJWT` (routes.ts): with no Authorization header respond 401;
otherwise the header is split on spaces (`authHeader.split(' ')`, modelled as
the list of parts) and the second part is the token; a missing token part or
a failed verification — an invalid or expired token — responds 403; success
yields the user. The verifier parameter stands for the external jwt
library. -/
def authenticateJWT (verify : String → Option AuthUser)
    (authHeaderParts : Option (List String)) : Except Nat AuthUser :=
  match authHeaderParts with
  | none => Except.error 401
  | some parts =>
    match parts[1]? with
    | none => Except.error 403
    | some token =>
      match verify token with
      | none => Except.error 403
      | some user => Except.ok user

/-- `authorizeRoles` (routes.ts): 401 when no authenticated user (or an empty,
hence falsy, role) is present, 403 when the user's role is not in the
allow-list. -/
def authorizeRoles (allowedRoles : List String) (user : Option AuthUser) :
    Except Nat Unit :=
  match user with
  | none => Except.error 401
  | some u =>
    if u.role = "" then Except.error 401
    else if allowedRoles.contains u.role then Except.ok ()
    else Except.error 403

/-- Claim C8 counterexample: a present but invalid bearer token is answered
with 403, not with the 401 the claim requires for every authentication
failure. -/
theorem C8_auth_counterexample :
    authenticateJWT (fun _ => none) (some ["Bearer", "badtoken"]) =
      Except.error 403 ∧
    authenticateJWT (fun _ => none) (some ["Bearer", "badtoken"]) ≠
      Except.error 401 := by
  refine ⟨rfl, ?_⟩
  intro h
  rw [show authenticateJWT (fun _ => none) (some ["Bearer", "badtoken"]) =
      Except.error 403 from rfl] at h
  injection h with h'
  exact absurd h' (by decide)

/-- Claim C8 (amended): a missing Authorization header — and a missing or
role-less authenticated user at the role gate — is reported with 401, while a
present but unverifiable (invalid or expired) token is reported with 403, as
is a non-empty role outside the allow-list. -/
theorem C8_auth_amended (verify : String → Option AuthUser)
    (parts : List String) (roles : List String) (u : AuthUser) :
    authenticateJWT verify none = Except.error 401 ∧
    ((∀ t, parts[1]? = some t → verify t = none) →
      authenticateJWT verify (some parts) = Except.error 403) ∧
    authorizeRoles roles none = Except.error 401 ∧
    (u.role ≠ "" → roles.contains u.role = false →
      authorizeRoles roles (some u) = Except.error 403) := by
  refine ⟨rfl, ?_, rfl, ?_⟩
  · intro hver
    rcases hget : parts[1]? with _ | t
    · simp [authenticateJWT, hget]
    · simp [authenticateJWT, hget, hver t hget]
  · intro hrole hcontains
    have hnotmem : u.role ∉ roles := fun hmem => by
      have htrue : roles.contains u.role = true := List.elem_iff.mpr hmem
      rw [htrue] at hcontains
      exact Bool.false_ne_true hcontains.symm
    simp [authorizeRoles, hrole, hnotmem]

/-- Witness for the amended C8: a verifier rejecting every token, a
Doctor-only allow-list and a Student user. -/
theorem C8_auth_amended_witness :
    authenticateJWT (fun _ => none) none = Except.error 401 ∧
    authenticateJWT (fun _ => none) (some ["Bearer", "x"]) = Except.error 403 ∧
    authorizeRoles ["Doctor"] none = Except.error 401 ∧
    authorizeRoles ["Doctor"]
      (some { id := 1, username := "s", role := "Student" }) =
      Except.error 403 := by
  have h := C8_auth_amended (fun _ => none) ["Bearer", "x"] ["Doctor"]
    { id := 1, username := "s", role := "Student" }
  exact ⟨h.1, h.2.1 (fun t _ => rfl), h.2.2.1, h.2.2.2 (by decide) (by decide)⟩

end MedLink
